import Mathlib

/-!
Shallow embedding of `src/thorn.c` (Thorn fractal generator).

The C program works in IEEE-754 `double`s.  We embed a double as either a
finite real number, an infinity, or NaN.  The sign of an infinity is dropped:
in this program infinities only ever feed the escape comparison
`ir*ir + ii*ii < escape` (where both squares are `+inf` regardless of sign)
and the additions `a/cos(b) + cx` with finite `cx`, so their sign is never
observable.  Finite arithmetic is modelled by exact real arithmetic; the
special-value propagation (0/0 -> NaN, x/0 -> inf for x != 0, NaN contaminating
every operation, every comparison with NaN false) mirrors IEEE-754.
-/

/-- A `double` value: a finite real, an (unsigned) infinity, or NaN. -/
inductive F where
  | fin (x : ℝ)
  | inf
  | nan

namespace F

/-- IEEE addition on the embedded doubles (finite part exact). -/
noncomputable def add : F → F → F
  | fin x, fin y => fin (x + y)
  | nan,   _     => nan
  | _,     nan   => nan
  | _,     _     => inf

/-- IEEE multiplication on the embedded doubles (finite part exact);
`inf * 0 = NaN` as in IEEE-754. -/
noncomputable def mul : F → F → F
  | fin x, fin y => fin (x * y)
  | nan,   _     => nan
  | _,     nan   => nan
  | inf,   fin y => if y = 0 then nan else inf
  | fin x, inf   => if x = 0 then nan else inf
  | inf,   inf   => inf

/-- IEEE division: `0/0 = NaN`, `x/0 = inf` for finite `x != 0`,
`x/inf = 0`, `inf/inf = NaN`. -/
noncomputable def div : F → F → F
  | fin x, fin y => if y = 0 then (if x = 0 then nan else inf) else fin (x / y)
  | nan,   _     => nan
  | _,     nan   => nan
  | inf,   fin _ => inf
  | fin _, inf   => fin 0
  | inf,   inf   => nan

/-- `cos` of a double: exact on finite values, NaN on infinities and NaN. -/
noncomputable def fcos : F → F
  | fin x => fin (Real.cos x)
  | _     => nan

/-- `sin` of a double: exact on finite values, NaN on infinities and NaN. -/
noncomputable def fsin : F → F
  | fin x => fin (Real.sin x)
  | _     => nan

end F

/-- `ir*ir + ii*ii`, the squared magnitude tested against `escape`. -/
noncomputable def norm2 (z : F × F) : F := F.add (F.mul z.1 z.1) (F.mul z.2 z.2)

/-- The C comparison `(ir*ir + ii*ii) < escape`: false whenever the left side
is NaN or infinite, as IEEE comparisons with NaN are false and
`+inf < escape` is false for finite `escape`. -/
def escTest (escape : ℝ) (z : F × F) : Prop :=
  match norm2 z with
  | F.fin v => v < escape
  | _       => False

/-- One pass of the do-while body at `src/thorn.c:151-156`:
`a = ir; b = ii; ir = a/cos(b) + cx; ii = b/sin(a) + cy`. -/
noncomputable def step (cx cy : ℝ) (z : F × F) : F × F :=
  (F.add (F.div z.1 (F.fcos z.2)) (F.fin cx),
   F.add (F.div z.2 (F.fsin z.1)) (F.fin cy))

open Classical

/-- The do-while loop at `src/thorn.c:149-156`:
`size_t k = 0; do { body } while (k++ < maxiter && norm2 < escape);`
`thornLoop k z` is the final value of `k` when the loop is entered with
counter `k` and state `z`; each pass runs the body once, then tests
`k < maxiter && escTest`, incrementing `k`. -/
noncomputable def thornLoop (cx cy escape : ℝ) (maxiter : ℕ) : ℕ → F × F → ℕ
  | k, z =>
    let z' := step cx cy z
    if h : k < maxiter ∧ escTest escape z' then
      thornLoop cx cy escape maxiter (k + 1) z'
    else
      k + 1
termination_by k _ => maxiter - k
decreasing_by omega

/-- The parameter set handed to `thorn` (`src/thorn.c:132-134`).
`maxiter` is a `uint8_t` in the C source; the bound `maxiter ≤ 255` is
carried as a hypothesis where a claim needs it. -/
structure Params where
  width   : ℕ
  height  : ℕ
  cx      : ℝ
  cy      : ℝ
  xmin    : ℝ
  xmax    : ℝ
  ymin    : ℝ
  ymax    : ℝ
  maxiter : ℕ
  escape  : ℝ

/-- `zr = xmin + j*(xmax - xmin) / width` (`src/thorn.c:147`). -/
noncomputable def zrOf (p : Params) (j : ℕ) : ℝ :=
  p.xmin + (j : ℝ) * (p.xmax - p.xmin) / (p.width : ℝ)

/-- `zi = ymin + i*(ymax - ymin) / height` (`src/thorn.c:145`). -/
noncomputable def ziOf (p : Params) (i : ℕ) : ℝ :=
  p.ymin + (i : ℝ) * (p.ymax - p.ymin) / (p.height : ℝ)

/-- The exit value of `k` for cell `(i, j)`: the loop entered with `k = 0`
and `(ir, ii) = (zr, zi)`. -/
noncomputable def thornPixel (p : Params) (i j : ℕ) : ℕ :=
  thornLoop p.cx p.cy p.escape p.maxiter 0 (F.fin (zrOf p j), F.fin (ziOf p i))

/-- The value actually stored in the raster: `(*buf)[i*width + j] = k` at
`src/thorn.c:157` stores the `size_t` counter into a `uint8_t` cell, i.e.
reduces it modulo 256. -/
noncomputable def thornStored (p : Params) (i j : ℕ) : ℕ :=
  thornPixel p i j % 256

/-! ### Helper lemmas about the loop -/

lemma thornLoop_unfold (cx cy escape : ℝ) (maxiter k : ℕ) (z : F × F) :
    thornLoop cx cy escape maxiter k z =
      if k < maxiter ∧ escTest escape (step cx cy z) then
        thornLoop cx cy escape maxiter (k + 1) (step cx cy z)
      else k + 1 := by
  rw [thornLoop.eq_def]
  rfl

lemma thornLoop_lower (cx cy escape : ℝ) (maxiter : ℕ) :
    ∀ n k z, maxiter - k ≤ n → k + 1 ≤ thornLoop cx cy escape maxiter k z := by
  intro n
  induction n with
  | zero =>
    intro k z hn
    rw [thornLoop_unfold]
    split
    · next h => omega
    · omega
  | succ n ih =>
    intro k z hn
    rw [thornLoop_unfold]
    split
    · next h =>
      have := ih (k + 1) (step cx cy z) (by omega)
      omega
    · omega

lemma thornLoop_upper (cx cy escape : ℝ) (maxiter : ℕ) :
    ∀ n k z, maxiter - k ≤ n → k ≤ maxiter →
      thornLoop cx cy escape maxiter k z ≤ maxiter + 1 := by
  intro n
  induction n with
  | zero =>
    intro k z hn hk
    rw [thornLoop_unfold]
    split
    · next h => omega
    · omega
  | succ n ih =>
    intro k z hn hk
    rw [thornLoop_unfold]
    split
    · next h => exact ih (k + 1) (step cx cy z) (by omega) (by omega)
    · omega

/-- The exit count of the do-while loop always lies in `[1, maxiter + 1]`. -/
lemma thornPixel_bounds (p : Params) (i j : ℕ) :
    1 ≤ thornPixel p i j ∧ thornPixel p i j ≤ p.maxiter + 1 := by
  constructor
  · exact thornLoop_lower p.cx p.cy p.escape p.maxiter p.maxiter 0 _ (by omega)
  · exact thornLoop_upper p.cx p.cy p.escape p.maxiter p.maxiter 0 _ (by omega) (by omega)

/-- The state trajectory: `traj cx cy z0 n` is the loop state after `n`
executions of the body starting from `z0`. -/
noncomputable def traj (cx cy : ℝ) (z0 : F × F) : ℕ → F × F
  | 0 => z0
  | n + 1 => step cx cy (traj cx cy z0 n)

/-- If every state the body ever produces passes the escape test, the loop
runs to the iteration cap and exits with `maxiter + 1`. -/
lemma thornLoop_cap (cx cy escape : ℝ) (maxiter : ℕ) (z0 : F × F)
    (hesc : ∀ n, 1 ≤ n → escTest escape (traj cx cy z0 n)) :
    ∀ m k, maxiter - k ≤ m → k ≤ maxiter →
      thornLoop cx cy escape maxiter k (traj cx cy z0 k) = maxiter + 1 := by
  intro m
  induction m with
  | zero =>
    intro k hm hk
    rw [thornLoop_unfold]
    split
    · next h => omega
    · omega
  | succ m ih =>
    intro k hm hk
    rw [thornLoop_unfold]
    by_cases hlt : k < maxiter
    · rw [if_pos ⟨hlt, hesc (k + 1) (by omega)⟩]
      have : step cx cy (traj cx cy z0 k) = traj cx cy z0 (k + 1) := rfl
      rw [this]
      exact ih (k + 1) (by omega) (by omega)
    · split
      · next h => omega
      · omega

/-! ### The spec's procedure (for the refinement claim C2) -/

/-- Exit condition of the spec's procedure (§4.1 step 3d, read as the words
state it): pass `p ≥ 1` is the exit pass when the loop does not continue
after it, i.e. when `p` has exhausted the cap (`p > maxiter`) or the state
after pass `p` fails `ir² + ii² < escape`. -/
def specExitP (escape : ℝ) (maxiter : ℕ) (t : ℕ → F × F) (p : ℕ) : Prop :=
  1 ≤ p ∧ (maxiter < p ∨ ¬ escTest escape (t p))

lemma specExitP_exists (escape : ℝ) (maxiter : ℕ) (t : ℕ → F × F) :
    ∃ p, specExitP escape maxiter t p :=
  ⟨maxiter + 1, by omega, Or.inl (by omega)⟩

/-- The exit value of `k` described by the spec (§4.1): the body runs at
least once, `k` counts the passes, and the loop continues only while
`k < maxiter` and `ir² + ii² < escape`; so the exit value is the first pass
at which continuing is impossible. -/
noncomputable def specExitCount (cx cy escape : ℝ) (maxiter : ℕ) (z0 : F × F) : ℕ :=
  Nat.find (specExitP_exists escape maxiter (traj cx cy z0))

lemma thornLoop_eq_specExit (cx cy escape : ℝ) (maxiter : ℕ) (z0 : F × F) :
    ∀ m k, maxiter - k ≤ m → k ≤ maxiter →
      (∀ p, 1 ≤ p → p ≤ k → ¬ specExitP escape maxiter (traj cx cy z0) p) →
      thornLoop cx cy escape maxiter k (traj cx cy z0 k) =
        specExitCount cx cy escape maxiter z0 := by
  intro m
  induction m with
  | zero =>
    intro k hm hk hinv
    rw [thornLoop_unfold]
    have hkm : k = maxiter := by omega
    rw [if_neg (by omega)]
    symm
    rw [specExitCount, Nat.find_eq_iff]
    refine ⟨⟨by omega, Or.inl (by omega)⟩, ?_⟩
    intro q hq
    by_cases h1 : 1 ≤ q
    · exact hinv q h1 (by omega)
    · intro hc
      exact absurd hc.1 h1
  | succ m ih =>
    intro k hm hk hinv
    rw [thornLoop_unfold]
    have hstep : step cx cy (traj cx cy z0 k) = traj cx cy z0 (k + 1) := rfl
    by_cases hc : k < maxiter ∧ escTest escape (traj cx cy z0 (k + 1))
    · rw [if_pos (by rw [hstep]; exact hc)]
      rw [hstep]
      refine ih (k + 1) (by omega) (by omega) ?_
      intro p h1 hp
      rcases Nat.lt_or_ge p (k + 1) with h | h
      · exact hinv p h1 (by omega)
      · have : p = k + 1 := by omega
        subst this
        rintro ⟨-, hor⟩
        rcases hor with h2 | h2
        · omega
        · exact h2 hc.2
    · rw [if_neg (by rw [hstep]; exact hc)]
      symm
      rw [specExitCount, Nat.find_eq_iff]
      constructor
      · refine ⟨by omega, ?_⟩
        by_cases hlt : k < maxiter
        · right
          intro he
          exact hc ⟨hlt, he⟩
        · left
          omega
      · intro q hq
        by_cases h1 : 1 ≤ q
        · exact hinv q h1 (by omega)
        · intro hcon
          exact absurd hcon.1 h1

/-- The engine's exit count for a cell equals the spec's exit count started
from the same initial state. -/
lemma thornPixel_eq_specExit (p : Params) (i j : ℕ) :
    thornPixel p i j =
      specExitCount p.cx p.cy p.escape p.maxiter (F.fin (zrOf p j), F.fin (ziOf p i)) := by
  have h := thornLoop_eq_specExit p.cx p.cy p.escape p.maxiter
    (F.fin (zrOf p j), F.fin (ziOf p i)) p.maxiter 0 (by omega) (by omega)
    (by intro q h1 h0; omega)
  exact h

/-! ### Concrete trajectories -/

lemma escTest_fin (escape x y : ℝ) :
    escTest escape (F.fin x, F.fin y) ↔ x * x + y * y < escape := by
  simp [escTest, norm2, F.add, F.mul]

lemma escTest_nan_right (escape : ℝ) (z : F) :
    ¬ escTest escape (z, F.nan) := by
  cases z <;> simp [escTest, norm2, F.add, F.mul]

/-- With `cx = cy = 0` and state `(c, 0)` where `sin c ≠ 0`, the body is the
identity: `ir = c/cos(0) + 0 = c` and `ii = 0/sin(c) + 0 = 0`. -/
lemma step_fix (c : ℝ) (hc : Real.sin c ≠ 0) :
    step 0 0 (F.fin c, F.fin 0) = (F.fin c, F.fin 0) := by
  simp [step, F.fcos, F.fsin, F.div, F.add, Real.cos_zero, hc]

lemma traj_fix (c : ℝ) (hc : Real.sin c ≠ 0) :
    ∀ n, traj 0 0 (F.fin c, F.fin 0) n = (F.fin c, F.fin 0) := by
  intro n
  induction n with
  | zero => rfl
  | succ n ih =>
    show step 0 0 (traj 0 0 (F.fin c, F.fin 0) n) = _
    rw [ih, step_fix c hc]

/-- From a fixed point `(c, 0)` with `sin c ≠ 0` and `c² < escape`, the loop
never escapes and exits with `maxiter + 1`. -/
lemma thornLoop_fix (c escape : ℝ) (maxiter : ℕ) (hc : Real.sin c ≠ 0)
    (hlt : c * c + 0 * 0 < escape) :
    thornLoop 0 0 escape maxiter 0 (F.fin c, F.fin 0) = maxiter + 1 := by
  have h := thornLoop_cap 0 0 escape maxiter (F.fin c, F.fin 0)
    (by
      intro n hn
      rw [traj_fix c hc, escTest_fin]
      exact hlt)
    maxiter 0 (by omega) (by omega)
  exact h

/-- With `cx = cy = 0` the body sends `(0, 0)` to `(0, NaN)`:
`ir = 0/cos(0) + 0 = 0` but `ii = 0/sin(0) + 0 = 0/0 = NaN`. -/
lemma step_origin : step 0 0 (F.fin 0, F.fin 0) = (F.fin 0, F.nan) := by
  simp [step, F.fcos, F.fsin, F.div, F.add, Real.cos_zero, Real.sin_zero]

/-- From `(0, 0)` with `cx = cy = 0` the loop exits after exactly one pass
whatever `maxiter` and `escape` are: the first body pass produces a NaN
component and the escape comparison with NaN is false. -/
lemma thornLoop_origin (escape : ℝ) (maxiter : ℕ) :
    thornLoop 0 0 escape maxiter 0 (F.fin 0, F.fin 0) = 1 := by
  rw [thornLoop_unfold, step_origin, if_neg]
  rintro ⟨-, h⟩
  exact escTest_nan_right escape (F.fin 0) h

/-! ### Raster layout and cell enumeration -/

/-- Row-major enumeration of the grid cells `(i, j)`, `i < height`,
`j < width` — the order of the nested loops at `src/thorn.c:144-146`. -/
def rowMajor (width height : ℕ) : List (ℕ × ℕ) :=
  (List.range height).flatMap (fun i => (List.range width).map (fun j => (i, j)))

lemma mem_rowMajor (width height : ℕ) (c : ℕ × ℕ) :
    c ∈ rowMajor width height ↔ c.1 < height ∧ c.2 < width := by
  cases c with
  | mk i j => simp [rowMajor, List.mem_flatMap, List.mem_map, List.mem_range]

/-- Writing cells into a flat buffer: each cell `(i, j)` is stored at offset
`i*width + j` (`src/thorn.c:157`), in the order given by `order`. -/
def writeCells (width : ℕ) (val : ℕ × ℕ → ℕ) :
    List (ℕ × ℕ) → (ℕ → ℕ) → (ℕ → ℕ)
  | [], buf => buf
  | c :: rest, buf =>
      writeCells width val rest (Function.update buf (c.1 * width + c.2) (val c))

/-- If the value written for each cell is a function of its flat offset
alone, the final buffer contents depend only on the set of cells written,
not on the order of the writes. -/
lemma writeCells_eval (width : ℕ) (val : ℕ × ℕ → ℕ) (vIdx : ℕ → ℕ) :
    ∀ (order : List (ℕ × ℕ)) (buf : ℕ → ℕ) (idx : ℕ),
      (∀ c ∈ order, val c = vIdx (c.1 * width + c.2)) →
      writeCells width val order buf idx =
        if ∃ c ∈ order, c.1 * width + c.2 = idx then vIdx idx else buf idx := by
  intro order
  induction order with
  | nil =>
    intro buf idx _
    rw [if_neg]
    · rfl
    · rintro ⟨c, hc, -⟩
      cases hc
  | cons c rest ih =>
    intro buf idx hval
    have hrest : ∀ d ∈ rest, val d = vIdx (d.1 * width + d.2) := by
      intro d hd
      exact hval d (List.mem_cons_of_mem c hd)
    show writeCells width val rest (Function.update buf (c.1 * width + c.2) (val c)) idx = _
    rw [ih (Function.update buf (c.1 * width + c.2) (val c)) idx hrest]
    by_cases hr : ∃ d ∈ rest, d.1 * width + d.2 = idx
    · rw [if_pos hr, if_pos]
      obtain ⟨d, hd, hidx⟩ := hr
      exact ⟨d, List.mem_cons_of_mem c hd, hidx⟩
    · rw [if_neg hr]
      by_cases hc : c.1 * width + c.2 = idx
      · rw [if_pos ⟨c, List.mem_cons_self c rest, hc⟩]
        rw [Function.update_apply, if_pos hc.symm, hval c (List.mem_cons_self c rest), hc]
      · rw [if_neg]
        · rw [Function.update_apply, if_neg (fun h => hc h.symm)]
        · rintro ⟨d, hd, hidx⟩
          rcases List.mem_cons.mp hd with h | h
          · subst h; exact hc hidx
          · exact hr ⟨d, h, hidx⟩

/-! ### Fold-max helpers (the maxval scan) -/

lemma foldl_max_init (l : List ℕ) : ∀ a, a ≤ l.foldl max a := by
  induction l with
  | nil => intro a; simp
  | cons y ys ih =>
    intro a
    calc a ≤ max a y := le_max_left a y
    _ ≤ ys.foldl max (max a y) := ih (max a y)

lemma foldl_max_mem_le (l : List ℕ) : ∀ a x, x ∈ l → x ≤ l.foldl max a := by
  induction l with
  | nil => intro a x hx; cases hx
  | cons y ys ih =>
    intro a x hx
    rcases List.mem_cons.mp hx with h | h
    · subst h
      calc x ≤ max a x := le_max_right a x
      _ ≤ ys.foldl max (max a x) := foldl_max_init ys _
    · exact ih (max a y) x h

lemma foldl_max_cases (l : List ℕ) : ∀ a, l.foldl max a = a ∨ l.foldl max a ∈ l := by
  induction l with
  | nil => intro a; left; rfl
  | cons y ys ih =>
    intro a
    rw [List.foldl_cons]
    rcases ih (max a y) with h | h
    · rcases Nat.le_total a y with hy | hy
      · right
        rw [h, max_eq_right hy]
        exact List.mem_cons_self y ys
      · left
        rw [h, max_eq_left hy]
    · right
      exact List.mem_cons_of_mem y h

lemma foldl_max_le (l : List ℕ) : ∀ a b, a ≤ b → (∀ x ∈ l, x ≤ b) →
    l.foldl max a ≤ b := by
  induction l with
  | nil => intro a b hab _; exact hab
  | cons y ys ih =>
    intro a b hab hall
    exact ih (max a y) b (max_le hab (hall y (List.mem_cons_self y ys)))
      (fun x hx => hall x (List.mem_cons_of_mem y hx))

/-! ### The encoder `pgmwrite` (`src/thorn.c:162-190`) -/

/-- The I/O outcomes the environment hands the program: whether `fopen`
succeeds, whether each successive output call succeeds, whether `fclose`
succeeds.  `src/thorn.c` consults only the `fopen` outcome; the return
values of `fprintf`, `fputc` and `fclose` are discarded. -/
structure World where
  openOk  : Bool
  putOk   : ℕ → Bool
  closeOk : Bool

/-- One item the encoder emits into the file. -/
inductive PgmItem where
  | magic
  | comment
  | dims (w h : ℕ)
  | maxdecl (v : ℕ)
  | pix (b : ℕ)
deriving DecidableEq

/-- The observable outcome of `pgmwrite`: its return code, the items it
attempted to write, and whether it opened / closed the destination. -/
structure WriteResult where
  ret    : ℕ
  items  : List PgmItem
  opened : Bool
  closed : Bool

/-- The maxval scan at `src/thorn.c:173-176`: one pass over the `uint8_t`
data (hence the `% 256` on each read), row-major, tracking the maximum. -/
def pgmMaxval (width height : ℕ) (data : ℕ → ℕ) : ℕ :=
  ((rowMajor width height).map (fun c => data (c.1 * width + c.2) % 256)).foldl max 0

/-- `pgmwrite` (`src/thorn.c:162-190`): on `fopen` failure return 1 having
written nothing; otherwise emit the header (`P5`, the optional comment, the
dimensions, the maxval) and one byte per pixel (`fputc((uint8_t) ...)`),
ignore every write outcome, `fclose`, and return 0. -/
def pgmwrite (w : World) (width height : ℕ) (data : ℕ → ℕ)
    (hasComment : Bool) : WriteResult :=
  if w.openOk then
    { ret := 0
      items :=
        [PgmItem.magic]
          ++ (if hasComment then [PgmItem.comment] else [])
          ++ [PgmItem.dims width height,
              PgmItem.maxdecl (pgmMaxval width height data)]
          ++ (rowMajor width height).map
              (fun c => PgmItem.pix (data (c.1 * width + c.2) % 256))
      opened := true
      closed := true }
  else
    { ret := 1, items := [], opened := false, closed := false }

/-- The spec's notion of an I/O failure during the operation (§7
`IOFailure`): the destination could not be opened, or one of the attempted
output calls failed, or the close failed. -/
def ioFailure (w : World) (r : WriteResult) : Prop :=
  w.openOk = false
    ∨ (∃ i, i < r.items.length ∧ w.putOk i = false)
    ∨ (r.opened = true ∧ w.closeOk = false)

/-- The row-major sequence of raster values seen by the encoder. -/
def cellList (width height : ℕ) (data : ℕ → ℕ) : List ℕ :=
  (rowMajor width height).map (fun c => data (c.1 * width + c.2))

/-- Modelled from the spec: the adaptive-precision pixel encoding of §4.2.
`src/thorn.c` stores 8-bit counts and always emits one byte per pixel
(`src/thorn.c:183-186`, "See earlier revisions for code handling uint16_t
grayscale values"); the two-byte branch lives only in those earlier
revisions, which are not under `src/`, so it is modelled from the spec's
words: scan for `maxval`; if `maxval` fits in one byte emit one byte per
pixel (the low 8 bits), otherwise two bytes per pixel, most significant
first, with `msb = value / 255` and `lsb = value & 255`. -/
def pgmEncodeSpec (width height : ℕ) (data : ℕ → ℕ) : ℕ × List (List ℕ) :=
  let maxval := (cellList width height data).foldl max 0
  if maxval ≤ 255 then
    (maxval, (cellList width height data).map (fun v => [v % 256]))
  else
    (maxval, (cellList width height data).map (fun v => [v / 255, v % 256]))

/-! ### The engine `thorn` as a whole (`src/thorn.c:132-160`) -/

/-- `thorn` (`src/thorn.c:132-160`): `*buf = realloc(...)` either yields a
buffer (with arbitrary prior contents `init`) or fails; on failure (`!*buf`)
the function returns at once — the caller sees no buffer and no cell is
computed.  Otherwise every cell `(i, j)` of the grid is written at offset
`i*width + j` with its stored count. -/
noncomputable def thornRun (allocOk : Bool) (init : ℕ → ℕ) (p : Params) :
    Option (ℕ → ℕ) :=
  if allocOk then
    some (writeCells p.width (fun c => thornStored p c.1 c.2)
      (rowMajor p.width p.height) init)
  else
    none

/-! ### Concrete parameter sets -/

/-- Width-1, height-1 grid over the viewport `[c, c+1] × [0, 1]` with
`cx = cy = 0`, `escape = 10⁴`: the single cell samples `(zr, zi) = (c, 0)`. -/
def fixParams (c : ℝ) (m : ℕ) : Params :=
  { width := 1, height := 1, cx := 0, cy := 0,
    xmin := c, xmax := c + 1, ymin := 0, ymax := 1,
    maxiter := m, escape := 10000 }

/-- The spec's degenerate case: width-1, height-1 grid over the degenerate
viewport `[0,0] × [0,0]`, `cx = cy = 0`, `escape = 10⁴`. -/
def degenParams (m : ℕ) : Params :=
  { width := 1, height := 1, cx := 0, cy := 0,
    xmin := 0, xmax := 0, ymin := 0, ymax := 0,
    maxiter := m, escape := 10000 }

lemma zrOf_fixParams (c : ℝ) (m : ℕ) : zrOf (fixParams c m) 0 = c := by
  simp [zrOf, fixParams]

lemma ziOf_fixParams (c : ℝ) (m : ℕ) : ziOf (fixParams c m) 0 = 0 := by
  simp [ziOf, fixParams]

/-- On the fixed-point inputs the loop runs to the cap: exit count
`m + 1`. -/
lemma thornPixel_fixParams (c : ℝ) (m : ℕ) (hc : Real.sin c ≠ 0)
    (h2 : c * c + 0 * 0 < 10000) :
    thornPixel (fixParams c m) 0 0 = m + 1 := by
  show thornLoop (fixParams c m).cx (fixParams c m).cy (fixParams c m).escape
      (fixParams c m).maxiter 0
      (F.fin (zrOf (fixParams c m) 0), F.fin (ziOf (fixParams c m) 0)) = m + 1
  rw [zrOf_fixParams, ziOf_fixParams]
  exact thornLoop_fix c 10000 m hc h2

lemma sin_ne_zero_of_mem_Ioc3 (c : ℝ) (h0 : 0 < c) (h3 : c ≤ 3) :
    Real.sin c ≠ 0 :=
  ne_of_gt (Real.sin_pos_of_pos_of_lt_pi h0 (lt_of_le_of_lt h3 Real.pi_gt_three))

lemma zrOf_degenParams (m : ℕ) : zrOf (degenParams m) 0 = 0 := by
  simp [zrOf, degenParams]

lemma ziOf_degenParams (m : ℕ) : ziOf (degenParams m) 0 = 0 := by
  simp [ziOf, degenParams]

/-- On the degenerate input the loop exits after one pass whatever `m`
is. -/
lemma thornPixel_degenParams (m : ℕ) : thornPixel (degenParams m) 0 0 = 1 := by
  show thornLoop (degenParams m).cx (degenParams m).cy (degenParams m).escape
      (degenParams m).maxiter 0
      (F.fin (zrOf (degenParams m) 0), F.fin (ziOf (degenParams m) 0)) = 1
  rw [zrOf_degenParams, ziOf_degenParams]
  exact thornLoop_origin 10000 m

lemma pgmEncodeSpec_fst (w h : ℕ) (d : ℕ → ℕ) :
    (pgmEncodeSpec w h d).1 = (cellList w h d).foldl max 0 := by
  rw [pgmEncodeSpec]
  by_cases hc : (cellList w h d).foldl max 0 ≤ 255
  · rw [if_pos hc]
  · rw [if_neg hc]

lemma pgmEncodeSpec_snd_le (w h : ℕ) (d : ℕ → ℕ)
    (hle : (cellList w h d).foldl max 0 ≤ 255) :
    (pgmEncodeSpec w h d).2 = (cellList w h d).map (fun v => [v % 256]) := by
  rw [pgmEncodeSpec, if_pos hle]

lemma pgmEncodeSpec_snd_gt (w h : ℕ) (d : ℕ → ℕ)
    (hgt : ¬ (cellList w h d).foldl max 0 ≤ 255) :
    (pgmEncodeSpec w h d).2 =
      (cellList w h d).map (fun v => [v / 255, v % 256]) := by
  rw [pgmEncodeSpec, if_neg hgt]

lemma flatIdx_div (i j w : ℕ) (hj : j < w) : (i * w + j) / w = i := by
  rw [Nat.add_comm, Nat.add_mul_div_right j i (by omega : 0 < w),
    Nat.div_eq_of_lt hj, Nat.zero_add]

lemma flatIdx_mod (i j w : ℕ) (hj : j < w) : (i * w + j) % w = j := by
  rw [Nat.add_comm, Nat.add_mul_mod_self_right, Nat.mod_eq_of_lt hj]

/-- The data function the engine's raster presents to the encoder: the cell
at flat offset `i*width + j` holds the stored count of `(i, j)`. -/
noncomputable def storedData (p : Params) : ℕ → ℕ :=
  fun idx => thornStored p (idx / p.width) (idx % p.width)

/-! ### Claims -/

/-- C1 (amended): for every valid parameter set with `maxiter ≤ 254`, every
count stored in the raster lies in `[1, maxiter + 1]` and is never 0.  (As
stated for every `maxiter` up to 255 the claim fails: the raster cell is an
8-bit byte, so at `maxiter = 255` a cell that reaches the iteration cap has
exit count 256 and stores `256 % 256 = 0`.) -/
theorem claim_C1 (p : Params) (i j : ℕ) (hw : 0 < p.width) (hh : 0 < p.height)
    (he : (0:ℝ) < p.escape) (hm : p.maxiter ≤ 254)
    (hi : i < p.height) (hj : j < p.width) :
    1 ≤ thornStored p i j ∧ thornStored p i j ≤ p.maxiter + 1 := by
  obtain ⟨h1, h2⟩ := thornPixel_bounds p i j
  have hmod : thornPixel p i j % 256 = thornPixel p i j :=
    Nat.mod_eq_of_lt (by omega)
  rw [thornStored, hmod]
  exact ⟨h1, h2⟩

/-- C1 witness: the degenerate cell with `maxiter = 5` stores a count in
`[1, 6]`. -/
theorem claim_C1_witness :
    1 ≤ thornStored (degenParams 5) 0 0 ∧
    thornStored (degenParams 5) 0 0 ≤ (degenParams 5).maxiter + 1 :=
  claim_C1 (degenParams 5) 0 0 (by norm_num [degenParams])
    (by norm_num [degenParams]) (by norm_num [degenParams])
    (by norm_num [degenParams]) (by norm_num [degenParams])
    (by norm_num [degenParams])

/-- C1 counterexample: a valid parameter set (width = height = 1,
escape = 10⁴ > 0, maxiter = 255, viewport `[1,2] × [0,1]`) whose single
cell samples `(zr, zi) = (1, 0)`, a fixed point of the body with
`1² + 0² < escape`; the loop runs to the cap, the exit count is 256, and
the stored 8-bit count is `256 % 256 = 0` — outside `[1, maxiter + 1]`. -/
theorem claim_C1_counterexample :
    0 < (fixParams 1 255).width ∧ 0 < (fixParams 1 255).height ∧
    (0:ℝ) < (fixParams 1 255).escape ∧ (fixParams 1 255).maxiter ≤ 255 ∧
    (fixParams 1 255).xmin < (fixParams 1 255).xmax ∧
    (fixParams 1 255).ymin < (fixParams 1 255).ymax ∧
    thornStored (fixParams 1 255) 0 0 = 0 := by
  refine ⟨by norm_num [fixParams], by norm_num [fixParams],
    by norm_num [fixParams], by norm_num [fixParams],
    by norm_num [fixParams], by norm_num [fixParams], ?_⟩
  rw [thornStored, thornPixel_fixParams 1 255
    (sin_ne_zero_of_mem_Ioc3 1 (by norm_num) (by norm_num)) (by norm_num)]

/-- C2 (amended): for every cell, the raw exit value of `k` equals the exit
value of the spec's procedure started from the same `(zr, zi)`; the count
stored in the 8-bit raster equals that exit value reduced modulo 256 (so
the two agree exactly whenever the exit value is below 256, in particular
for every `maxiter ≤ 254`).  (As stated — stored count = procedure's exit
value — the claim fails at `maxiter = 255` on a cap-reaching cell.) -/
theorem claim_C2 (p : Params) (i j : ℕ) (hi : i < p.height) (hj : j < p.width) :
    thornPixel p i j =
      specExitCount p.cx p.cy p.escape p.maxiter
        (F.fin (zrOf p j), F.fin (ziOf p i))
    ∧ thornStored p i j =
      specExitCount p.cx p.cy p.escape p.maxiter
        (F.fin (zrOf p j), F.fin (ziOf p i)) % 256 := by
  refine ⟨thornPixel_eq_specExit p i j, ?_⟩
  rw [thornStored, thornPixel_eq_specExit p i j]

/-- C2 witness: the degenerate cell with `maxiter = 5`. -/
theorem claim_C2_witness :
    thornPixel (degenParams 5) 0 0 =
      specExitCount (degenParams 5).cx (degenParams 5).cy
        (degenParams 5).escape (degenParams 5).maxiter
        (F.fin (zrOf (degenParams 5) 0), F.fin (ziOf (degenParams 5) 0))
    ∧ thornStored (degenParams 5) 0 0 =
      specExitCount (degenParams 5).cx (degenParams 5).cy
        (degenParams 5).escape (degenParams 5).maxiter
        (F.fin (zrOf (degenParams 5) 0), F.fin (ziOf (degenParams 5) 0)) % 256 :=
  claim_C2 (degenParams 5) 0 0 (by norm_num [degenParams])
    (by norm_num [degenParams])

/-- C2 counterexample: at width = height = 1, viewport `[2,3] × [0,1]`,
`cx = cy = 0`, `maxiter = 255`, `escape = 10⁴`, the single cell samples the
fixed point `(2, 0)`; the spec procedure's exit value of `k` is 256, but
the count stored in the 8-bit raster is 0, not 256. -/
theorem claim_C2_counterexample :
    specExitCount (fixParams 2 255).cx (fixParams 2 255).cy
      (fixParams 2 255).escape (fixParams 2 255).maxiter
      (F.fin (zrOf (fixParams 2 255) 0), F.fin (ziOf (fixParams 2 255) 0)) = 256
    ∧ thornStored (fixParams 2 255) 0 0 = 0 := by
  have hpix : thornPixel (fixParams 2 255) 0 0 = 256 :=
    thornPixel_fixParams 2 255
      (sin_ne_zero_of_mem_Ioc3 2 (by norm_num) (by norm_num)) (by norm_num)
  constructor
  · rw [← thornPixel_eq_specExit]
    exact hpix
  · rw [thornStored, hpix]

/-- C3 (amended): a cell whose trajectory never passes the escape test has
raw exit count exactly `maxiter + 1`, and stores `(maxiter + 1) % 256` in
the 8-bit raster.  (As stated — stored count exactly `maxiter + 1` — the
claim fails at `maxiter = 255`, where the stored byte is `256 % 256 = 0`.) -/
theorem claim_C3 (p : Params) (i j : ℕ)
    (hesc : ∀ n, 1 ≤ n →
      escTest p.escape
        (traj p.cx p.cy (F.fin (zrOf p j), F.fin (ziOf p i)) n)) :
    thornPixel p i j = p.maxiter + 1
    ∧ thornStored p i j = (p.maxiter + 1) % 256 := by
  have h := thornLoop_cap p.cx p.cy p.escape p.maxiter
    (F.fin (zrOf p j), F.fin (ziOf p i)) hesc p.maxiter 0 (by omega) (by omega)
  have hpix : thornPixel p i j = p.maxiter + 1 := h
  exact ⟨hpix, by rw [thornStored, hpix]⟩

/-- C3 witness: the bounded cell `(1, 0)` with `maxiter = 5`: exit count 6,
stored count 6. -/
theorem claim_C3_witness :
    thornPixel (fixParams 1 5) 0 0 = (fixParams 1 5).maxiter + 1
    ∧ thornStored (fixParams 1 5) 0 0 = ((fixParams 1 5).maxiter + 1) % 256 := by
  refine claim_C3 (fixParams 1 5) 0 0 ?_
  intro n hn
  have hs : Real.sin (1:ℝ) ≠ 0 :=
    sin_ne_zero_of_mem_Ioc3 1 (by norm_num) (by norm_num)
  rw [zrOf_fixParams, ziOf_fixParams]
  show escTest 10000 (traj 0 0 (F.fin 1, F.fin 0) n)
  rw [traj_fix 1 hs n, escTest_fin]
  norm_num

/-- C3 counterexample: at width = height = 1, viewport `[3,4] × [0,1]`,
`cx = cy = 0`, `maxiter = 255`, `escape = 10⁴`, the single cell samples the
fixed point `(3, 0)` whose trajectory never reaches the escape threshold
(exit count = cap = 256), yet the count stored in the raster is 0, not
`maxiter + 1 = 256`. -/
theorem claim_C3_counterexample :
    thornPixel (fixParams 3 255) 0 0 = (fixParams 3 255).maxiter + 1
    ∧ (fixParams 3 255).maxiter + 1 = 256
    ∧ thornStored (fixParams 3 255) 0 0 = 0 := by
  have hpix : thornPixel (fixParams 3 255) 0 0 = 256 :=
    thornPixel_fixParams 3 255
      (sin_ne_zero_of_mem_Ioc3 3 (by norm_num) (by norm_num)) (by norm_num)
  exact ⟨hpix, rfl, by rw [thornStored, hpix]⟩

/-- C4 (spec-modelled encoder): the declared `maxval` is the true maximum
over the encoded pixel values (every value is bounded by it and, on a
non-empty grid, it is attained), the body is one byte per pixel (the low 8
bits) in row-major order exactly when `maxval ≤ 255`, and two bytes per
pixel, most significant first with `msb = value / 255` and
`lsb = value & 255 = value % 256`, exactly when `maxval ≥ 256`. -/
theorem claim_C4 (w h : ℕ) (d : ℕ → ℕ) :
    (∀ v ∈ cellList w h d, v ≤ (pgmEncodeSpec w h d).1)
    ∧ (0 < w * h → (pgmEncodeSpec w h d).1 ∈ cellList w h d)
    ∧ ((pgmEncodeSpec w h d).1 ≤ 255 →
        (pgmEncodeSpec w h d).2 = (cellList w h d).map (fun v => [v % 256]))
    ∧ (256 ≤ (pgmEncodeSpec w h d).1 →
        (pgmEncodeSpec w h d).2 =
          (cellList w h d).map (fun v => [v / 255, v % 256])) := by
  rw [pgmEncodeSpec_fst]
  refine ⟨fun v hv => foldl_max_mem_le _ 0 v hv, ?_, ?_, ?_⟩
  · intro hwh
    have hw : 0 < w := by
      rcases Nat.eq_zero_or_pos w with h0 | h0
      · subst h0; simp at hwh
      · exact h0
    have hh : 0 < h := by
      rcases Nat.eq_zero_or_pos h with h0 | h0
      · subst h0; simp at hwh
      · exact h0
    have hmem : d (0 * w + 0) ∈ cellList w h d := by
      exact List.mem_map_of_mem _ ((mem_rowMajor w h (0, 0)).mpr ⟨hh, hw⟩)
    rcases foldl_max_cases (cellList w h d) 0 with hc | hc
    · have hle : d (0 * w + 0) ≤ (cellList w h d).foldl max 0 :=
        foldl_max_mem_le _ 0 _ hmem
      have hd0 : d (0 * w + 0) = 0 := by omega
      rw [hc, ← hd0]
      exact hmem
    · exact hc
  · exact pgmEncodeSpec_snd_le w h d
  · intro hge
    exact pgmEncodeSpec_snd_gt w h d (by omega)

/-- C4 witness: the spec's 2×2 raster `{1, 3, 1, 300}`: `maxval = 300` is
attained, and the body takes the two-byte branch, the fourth pixel encoding
to `[300 / 255, 300 % 256] = [1, 44]`. -/
theorem claim_C4_witness :
    (0:ℕ) < 2 * 2
    ∧ (pgmEncodeSpec 2 2 (fun idx => [1, 3, 1, 300].getD idx 0)).1 = 300
    ∧ (pgmEncodeSpec 2 2 (fun idx => [1, 3, 1, 300].getD idx 0)).1 ∈
        cellList 2 2 (fun idx => [1, 3, 1, 300].getD idx 0)
    ∧ (pgmEncodeSpec 2 2 (fun idx => [1, 3, 1, 300].getD idx 0)).2 =
        (cellList 2 2 (fun idx => [1, 3, 1, 300].getD idx 0)).map
          (fun v => [v / 255, v % 256])
    ∧ (pgmEncodeSpec 2 2 (fun idx => [1, 3, 1, 300].getD idx 0)).2 =
        [[0, 1], [0, 3], [0, 1], [1, 44]] :=
  ⟨by decide, by decide,
    (claim_C4 2 2 (fun idx => [1, 3, 1, 300].getD idx 0)).2.1 (by decide),
    (claim_C4 2 2 (fun idx => [1, 3, 1, 300].getD idx 0)).2.2.2 (by decide),
    by decide⟩

/-- C5 (amended): `pgmwrite` reports an error exactly when the destination
cannot be opened (returning nonzero, having written nothing and with no
handle to release); when the open succeeds it attempts every output call,
ignores their outcomes, closes the handle and returns success — so write
and close failures are NOT reported to the caller.  (As stated — success
exactly when no open/write/close failure occurred — the claim fails: the
source discards the return values of `fprintf`, `fputc` and `fclose`.) -/
theorem claim_C5 (w : World) (width height : ℕ) (data : ℕ → ℕ)
    (hasComment : Bool) :
    ((pgmwrite w width height data hasComment).ret = 0 ↔ w.openOk = true)
    ∧ (w.openOk = false →
        (pgmwrite w width height data hasComment).items = []
        ∧ (pgmwrite w width height data hasComment).opened = false
        ∧ (pgmwrite w width height data hasComment).closed = false)
    ∧ (w.openOk = true →
        (pgmwrite w width height data hasComment).closed = true) := by
  cases hw : w.openOk <;> simp [pgmwrite, hw]

/-- C5 witness: with a failing open, nothing is written and the return code
is nonzero. -/
theorem claim_C5_witness :
    (pgmwrite ⟨false, fun _ => true, true⟩ 1 1 (fun _ => 0) false).items = []
    ∧ (pgmwrite ⟨false, fun _ => true, true⟩ 1 1 (fun _ => 0) false).ret ≠ 0 := by
  have h := claim_C5 ⟨false, fun _ => true, true⟩ 1 1 (fun _ => 0) false
  refine ⟨(h.2.1 rfl).1, fun hc => ?_⟩
  have := h.1.mp hc
  simp at this

/-- C5 counterexample: a run in which every write fails (`putOk` always
false) but the open succeeds: an I/O failure occurred, yet `pgmwrite`
returns 0 (success), because the source never checks the write results. -/
theorem claim_C5_counterexample :
    (pgmwrite ⟨true, fun _ => false, true⟩ 1 1 (fun _ => 0) false).ret = 0
    ∧ ioFailure ⟨true, fun _ => false, true⟩
        (pgmwrite ⟨true, fun _ => false, true⟩ 1 1 (fun _ => 0) false) := by
  refine ⟨by decide, Or.inr (Or.inl ⟨0, ?_, rfl⟩)⟩
  decide

/-- C6: on the degenerate input (width = height = 1, viewport
`[0,0] × [0,0]`, `cx = cy = 0`, `escape = 10⁴`) the cell samples
`(zr, zi) = (0, 0)`; the first body pass yields `ir = 0` and
`ii = 0/sin(0) + 0 = NaN`, the escape comparison against the NaN-tainted
norm is false, the loop halts after exactly one pass, and the stored count
is 1 — for `maxiter = 5` and indeed for every `maxiter`. -/
theorem claim_C6 :
    (F.fin (zrOf (degenParams 5) 0), F.fin (ziOf (degenParams 5) 0))
      = (F.fin 0, F.fin 0)
    ∧ step 0 0 (F.fin 0, F.fin 0) = (F.fin 0, F.nan)
    ∧ ¬ escTest (degenParams 5).escape (step 0 0 (F.fin 0, F.fin 0))
    ∧ thornStored (degenParams 5) 0 0 = 1
    ∧ ∀ m : ℕ, thornStored (degenParams m) 0 0 = 1 := by
  refine ⟨?_, step_origin, ?_, ?_, ?_⟩
  · rw [zrOf_degenParams, ziOf_degenParams]
  · rw [step_origin]
    exact escTest_nan_right _ _
  · rw [thornStored, thornPixel_degenParams]
  · intro m
    rw [thornStored, thornPixel_degenParams]

/-- C7: if the raster buffer cannot be allocated, the engine returns no
buffer at all — the caller observes the failure (`none`) and no cell
computation or write is performed on any buffer. -/
theorem claim_C7 (p : Params) (init : ℕ → ℕ) :
    thornRun false init p = none := by
  simp [thornRun]

/-- C8: two runs of the engine with the same parameters produce identical
rasters whatever order the cells are written in — any schedule that writes
every grid cell exactly the cells of the row-major enumeration (in any
permutation, modelling any worker count and interleaving) yields the same
final buffer, because the value written for cell `(i, j)` depends only on
`(i, j)` and the parameters. -/
theorem claim_C8 (p : Params) (o1 o2 : List (ℕ × ℕ)) (buf : ℕ → ℕ)
    (h1 : o1.Perm (rowMajor p.width p.height))
    (h2 : o2.Perm (rowMajor p.width p.height)) (idx : ℕ) :
    writeCells p.width (fun c => thornStored p c.1 c.2) o1 buf idx =
      writeCells p.width (fun c => thornStored p c.1 c.2) o2 buf idx := by
  have key : ∀ o : List (ℕ × ℕ), o.Perm (rowMajor p.width p.height) →
      writeCells p.width (fun c => thornStored p c.1 c.2) o buf idx =
        if ∃ c ∈ rowMajor p.width p.height, c.1 * p.width + c.2 = idx
        then thornStored p (idx / p.width) (idx % p.width)
        else buf idx := by
    intro o ho
    rw [writeCells_eval p.width (fun c => thornStored p c.1 c.2)
      (fun n => thornStored p (n / p.width) (n % p.width)) o buf idx ?_]
    · have hcond : (∃ c ∈ o, c.1 * p.width + c.2 = idx) ↔
          (∃ c ∈ rowMajor p.width p.height, c.1 * p.width + c.2 = idx) := by
        constructor
        · rintro ⟨c, hc, hce⟩
          exact ⟨c, ho.mem_iff.mp hc, hce⟩
        · rintro ⟨c, hc, hce⟩
          exact ⟨c, ho.mem_iff.mpr hc, hce⟩
      exact if_congr hcond rfl rfl
    · intro c hc
      have hmem : c ∈ rowMajor p.width p.height := ho.mem_iff.mp hc
      have hcw : c.2 < p.width := ((mem_rowMajor _ _ c).mp hmem).2
      show thornStored p c.1 c.2 =
        thornStored p ((c.1 * p.width + c.2) / p.width)
          ((c.1 * p.width + c.2) % p.width)
      rw [flatIdx_div c.1 c.2 p.width hcw, flatIdx_mod c.1 c.2 p.width hcw]
  rw [key o1 h1, key o2 h2]

/-- C8 witness: a 2×1 grid written in the two possible orders agrees at
offset 0. -/
theorem claim_C8_witness :
    writeCells (Params.mk 2 1 0 0 0 1 0 1 5 10000).width
      (fun c => thornStored (Params.mk 2 1 0 0 0 1 0 1 5 10000) c.1 c.2)
      [(0, 0), (0, 1)] (fun _ => 0) 0 =
    writeCells (Params.mk 2 1 0 0 0 1 0 1 5 10000).width
      (fun c => thornStored (Params.mk 2 1 0 0 0 1 0 1 5 10000) c.1 c.2)
      [(0, 1), (0, 0)] (fun _ => 0) 0 :=
  claim_C8 (Params.mk 2 1 0 0 0 1 0 1 5 10000) [(0, 0), (0, 1)]
    [(0, 1), (0, 0)] (fun _ => 0) (by decide) (by decide) 0

/-- C9: the sampled x-coordinate of the last column,
`xmin + (W-1)*(xmax - xmin)/W`, is strictly less than `xmax` whenever
`W > 0` and `xmin < xmax`: the grid mapping is left-inclusive and
right-open. -/
theorem claim_C9 (p : Params) (hw : 0 < p.width) (hx : p.xmin < p.xmax) :
    zrOf p (p.width - 1) < p.xmax := by
  rw [zrOf, Nat.cast_sub (by omega : 1 ≤ p.width), Nat.cast_one]
  have hW : (1:ℝ) ≤ (p.width : ℝ) := by exact_mod_cast hw
  have hd : (0:ℝ) < p.xmax - p.xmin := by linarith
  have hdiv : ((p.width : ℝ) - 1) * (p.xmax - p.xmin) / (p.width : ℝ) <
      p.xmax - p.xmin := by
    rw [div_lt_iff₀ (by linarith : (0:ℝ) < (p.width : ℝ))]
    nlinarith
  linarith

/-- C9 witness: width 2 over `[0, 1]`: the last column samples strictly
below `xmax = 1`. -/
theorem claim_C9_witness :
    zrOf (Params.mk 2 1 0 0 0 1 0 1 5 10000)
        ((Params.mk 2 1 0 0 0 1 0 1 5 10000).width - 1) <
      (Params.mk 2 1 0 0 0 1 0 1 5 10000).xmax :=
  claim_C9 (Params.mk 2 1 0 0 0 1 0 1 5 10000) (by norm_num) (by norm_num)

/-- C10: the stored value is the exit count reduced modulo 256; for
`maxiter ≤ 254` the stored value equals the exit count exactly, while a
cell whose exit count is 256 (the cap at `maxiter = 255`) stores 0; and the
maxval the encoder computes over the 8-bit raster never exceeds 255, so the
adaptive encoder always takes the one-byte branch on an engine raster. -/
theorem claim_C10 (p : Params) (i j : ℕ) :
    thornStored p i j = thornPixel p i j % 256
    ∧ (p.maxiter ≤ 254 → thornStored p i j = thornPixel p i j)
    ∧ (thornPixel p i j = 256 → thornStored p i j = 0)
    ∧ pgmMaxval p.width p.height (storedData p) ≤ 255
    ∧ (pgmEncodeSpec p.width p.height (storedData p)).1 ≤ 255
    ∧ (pgmEncodeSpec p.width p.height (storedData p)).2 =
        (cellList p.width p.height (storedData p)).map (fun v => [v % 256]) := by
  have hbound : ∀ v ∈ cellList p.width p.height (storedData p), v ≤ 255 := by
    intro v hv
    obtain ⟨c, hc, hcv⟩ := List.mem_map.mp hv
    have : storedData p (c.1 * p.width + c.2) % 256 ≤ 255 := by omega
    rw [← hcv]
    have : storedData p (c.1 * p.width + c.2) =
        thornPixel p ((c.1 * p.width + c.2) / p.width)
          ((c.1 * p.width + c.2) % p.width) % 256 := rfl
    omega
  have hmv : (cellList p.width p.height (storedData p)).foldl max 0 ≤ 255 :=
    foldl_max_le _ 0 255 (by omega) hbound
  refine ⟨rfl, ?_, ?_, ?_, ?_, ?_⟩
  · intro hm
    obtain ⟨h1, h2⟩ := thornPixel_bounds p i j
    exact Nat.mod_eq_of_lt (by omega)
  · intro h256
    rw [thornStored, h256]
  · rw [pgmMaxval]
    refine foldl_max_le _ 0 255 (by omega) ?_
    intro x hx
    obtain ⟨c, hc, hcx⟩ := List.mem_map.mp hx
    omega
  · rw [pgmEncodeSpec_fst]
    exact hmv
  · exact pgmEncodeSpec_snd_le p.width p.height (storedData p) hmv

/-- C10 witness: at `maxiter = 255` the cap-reaching cell `(1, 0)` has exit
count 256 and stores 0; at `maxiter = 5` the same cell has exit count 6 and
stores 6 exactly. -/
theorem claim_C10_witness :
    thornStored (fixParams 1 255) 0 0 = 0
    ∧ thornStored (fixParams 1 5) 0 0 = thornPixel (fixParams 1 5) 0 0 := by
  have hs : Real.sin (1:ℝ) ≠ 0 :=
    sin_ne_zero_of_mem_Ioc3 1 (by norm_num) (by norm_num)
  constructor
  · exact (claim_C10 (fixParams 1 255) 0 0).2.2.1
      (thornPixel_fixParams 1 255 hs (by norm_num))
  · exact (claim_C10 (fixParams 1 5) 0 0).2.1 (by norm_num [fixParams])
